import Mathlib

/-!
# Verification of the `yggdrasilctl` admin-socket client

A shallow embedding of `src/crates/yggdrasil/src/yggdrasilctl.rs`: the
request builder (trailing `key=value` tokens folded into a sorted map),
the JSON data model used on the wire (`serde_json::Value` with the maps
of its default `BTreeMap` backend, i.e. key-sorted association lists),
the compact and pretty serializers, a JSON text parser, and the
response-interpretation / rendering pipeline of `main` together with
`print_kv`.

Machine strings are Lean `String`s (lists of unicode scalar values;
UTF-8 byte order and scalar-value order agree, so the `BTreeMap` key
order is `String` lexicographic order).  Output produced through
`println!` is modelled as the list of printed payloads, one list entry
per `println!` call.
-/

/-- `serde_json::Value`.  Objects are the default `BTreeMap` backend:
association lists kept sorted by key with unique keys; numbers in this
development are integers (the only numbers the client's claims touch). -/
inductive Json where
  | null
  | bool (b : Bool)
  | num (n : Int)
  | str (s : String)
  | arr (elems : List Json)
  | obj (fields : List (String × Json))

/-- Association-list lookup, first match: `serde_json::Map::get`. -/
def lookupField : List (String × Json) → String → Option Json
  | [], _ => none
  | (k, v) :: rest, key => if k = key then some v else lookupField rest key

/-- `Value::get(key)`: `Some` only on objects containing the key. -/
def Json.get : Json → String → Option Json
  | .obj fields, key => lookupField fields key
  | _, _ => none

/-- `Value::as_str`. -/
def Json.asStr : Json → Option String
  | .str s => some s
  | _ => none

/-- `Value::as_array`. -/
def Json.asArr : Json → Option (List Json)
  | .arr xs => some xs
  | _ => none

/-- `&value[key]` (`Index<&str> for Value`): the entry, or `Null` when
the key is absent or the value is not an object. -/
def Json.index (j : Json) (key : String) : Json :=
  (j.get key).getD Json.null

/-- `BTreeMap::insert`: place `k` at its sorted position, replacing an
existing binding of the same key. -/
def mapInsert (k : String) (v : Json) : List (String × Json) → List (String × Json)
  | [] => [(k, v)]
  | (k', v') :: rest =>
    if k < k' then (k, v) :: (k', v') :: rest
    else if k = k' then (k, v) :: rest
    else (k', v') :: mapInsert k v rest

/-- Lowercase hexadecimal digit, as in `serde_json`'s string escaper. -/
def hexDigitOf (n : Nat) : Char :=
  Char.ofNat (if n < 10 then 48 + n else 87 + n)

/-- `serde_json`'s escaping of one character inside a JSON string:
quote and backslash get two-character escapes, the five named control
characters their short forms, the remaining control characters
`\u00XX`, everything else is emitted verbatim. -/
def escapeChar (c : Char) : List Char :=
  if c = '"' then ['\\', '"']
  else if c = '\\' then ['\\', '\\']
  else if c = Char.ofNat 8 then ['\\', 'b']
  else if c = Char.ofNat 9 then ['\\', 't']
  else if c = Char.ofNat 10 then ['\\', 'n']
  else if c = Char.ofNat 12 then ['\\', 'f']
  else if c = Char.ofNat 13 then ['\\', 'r']
  else if c.toNat < 32 then
    '\\' :: 'u' :: '0' :: '0' :: hexDigitOf (c.toNat / 16) :: [hexDigitOf (c.toNat % 16)]
  else [c]

/-- Escape every character of a string body. -/
def escapeList : List Char → List Char
  | [] => []
  | c :: cs => escapeChar c ++ escapeList cs

/-- A JSON string literal: quotes around the escaped body. -/
def quoteString (s : String) : List Char :=
  '"' :: (escapeList s.data ++ ['"'])

/-- The word `null` of the wire grammar. -/
def nullLit : List Char := ['n', 'u', 'l', 'l']

/-- The word `true` of the wire grammar. -/
def trueLit : List Char := ['t', 'r', 'u', 'e']

/-- The word `false` of the wire grammar. -/
def falseLit : List Char := ['f', 'a', 'l', 's', 'e']

mutual

/-- `serde_json::to_string` (compact, no whitespace), as a character list. -/
def Json.compact : Json → List Char
  | .null => nullLit
  | .bool true => trueLit
  | .bool false => falseLit
  | .num n => (toString n).data
  | .str s => quoteString s
  | .arr xs => '[' :: (compactElems xs ++ [']'])
  | .obj fs => '{' :: (compactFields fs ++ ['}'])

/-- Comma-separated compact array elements. -/
def compactElems : List Json → List Char
  | [] => []
  | [x] => Json.compact x
  | x :: y :: xs => Json.compact x ++ ',' :: compactElems (y :: xs)

/-- Comma-separated compact `"key":value` members. -/
def compactFields : List (String × Json) → List Char
  | [] => []
  | [(k, v)] => quoteString k ++ ':' :: Json.compact v
  | (k, v) :: f :: fs => quoteString k ++ ':' :: Json.compact v ++ ',' :: compactFields (f :: fs)

end

/-- `serde_json::to_string` as a `String`. -/
def Json.compactString (j : Json) : String :=
  String.mk j.compact

mutual

/-- `serde_json::to_string_pretty` (two-space indentation), at a given
current indentation depth. -/
def Json.prettyAux : Nat → Json → List Char
  | _, .null => nullLit
  | _, .bool true => trueLit
  | _, .bool false => falseLit
  | _, .num n => (toString n).data
  | _, .str s => quoteString s
  | _, .arr [] => ['[', ']']
  | ind, .arr (x :: xs) =>
    '[' :: '\n' :: (List.replicate (ind + 2) ' ' ++ prettyElems (ind + 2) x xs
      ++ '\n' :: (List.replicate ind ' ' ++ [']']))
  | _, .obj [] => ['{', '}']
  | ind, .obj (f :: fs) =>
    '{' :: '\n' :: (List.replicate (ind + 2) ' ' ++ prettyFields (ind + 2) f fs
      ++ '\n' :: (List.replicate ind ' ' ++ ['}']))
termination_by _ j => sizeOf j

/-- Pretty array elements, one per line. -/
def prettyElems : Nat → Json → List Json → List Char
  | ind, x, [] => Json.prettyAux ind x
  | ind, x, y :: ys =>
    Json.prettyAux ind x ++ ',' :: '\n' :: (List.replicate ind ' ' ++ prettyElems ind y ys)
termination_by _ x xs => 1 + sizeOf x + sizeOf xs

/-- Pretty object members, one `"key": value` per line. -/
def prettyFields : Nat → String × Json → List (String × Json) → List Char
  | ind, (k, v), [] => quoteString k ++ ':' :: ' ' :: Json.prettyAux ind v
  | ind, (k, v), f :: fs =>
    quoteString k ++ ':' :: ' ' :: Json.prettyAux ind v
      ++ ',' :: '\n' :: (List.replicate ind ' ' ++ prettyFields ind f fs)
termination_by _ f fs => 1 + sizeOf f + sizeOf fs

end

/-- `serde_json::to_string_pretty` as a `String`. -/
def Json.prettyString (j : Json) : String :=
  String.mk (Json.prettyAux 0 j)

/-- `str::split_once` on a character list: split at the first occurrence. -/
def splitOnceChar (c : Char) : List Char → Option (List Char × List Char)
  | [] => none
  | x :: xs =>
    if x = c then some ([], xs)
    else (splitOnceChar c xs).map (fun p => (x :: p.1, p.2))

/-- `str::split_once`. -/
def splitOnce (s : String) (c : Char) : Option (String × String) :=
  (splitOnceChar c s.data).map (fun p => (String.mk p.1, String.mk p.2))

/-- `yggdrasilctl.rs` lines 49–54: fold the trailing tokens into the
`arguments` map; only tokens containing `=` contribute, split at the
first `=`, the value stored as a JSON string. -/
def parseArguments (tokens : List String) : List (String × Json) :=
  tokens.foldl
    (fun acc arg =>
      match splitOnce arg '=' with
      | some (k, v) => mapInsert k (Json.str v) acc
      | none => acc)
    []

/-- `yggdrasilctl.rs` lines 56–60: the `json!` request object, built by
inserting `request`, `arguments`, `keepalive` into a fresh map. -/
def buildRequest (command : String) (arguments : List (String × Json)) : Json :=
  Json.obj (mapInsert "keepalive" (Json.bool false)
    (mapInsert "arguments" (Json.obj arguments)
      (mapInsert "request" (Json.str command) [])))

/-- Right-pad with spaces to `width` characters: `format!("{:width$}")`
on an ASCII string. -/
def padTo (s : String) (width : Nat) : String :=
  s ++ String.mk (List.replicate (width - s.length) ' ')

/-- The displayed form of a field value in `print_kv` (lines 201–205):
strings verbatim, `Null` as `n/a`, anything else via `Value`'s
`Display` (compact JSON). -/
def valueDisplay : Json → String
  | .str s => s
  | .null => "n/a"
  | other => String.mk other.compact

/-- One `print_kv` output line (line 206): two leading spaces, the
colon-suffixed label padded to `width`, two spaces, the value text. -/
def kvLine (width : Nat) (label : String) (valStr : String) : String :=
  "  " ++ padTo (label ++ ":") width ++ "  " ++ valStr

/-- `fields.iter().map(|(l, _)| l.len()).max().unwrap_or(0)` (line 198). -/
def maxLabelLen (fields : List (String × String)) : Nat :=
  fields.foldl (fun m lk => max m lk.1.length) 0

/-- The `for` loop of `print_kv` (lines 199–208): one line per field
present in the object, skipping absent fields. -/
def printKvAux (obj : Json) (width : Nat) : List (String × String) → List String
  | [] => []
  | (label, key) :: rest =>
    match obj.get key with
    | some v => kvLine width label (valueDisplay v) :: printKvAux obj width rest
    | none => printKvAux obj width rest

/-- `print_kv` (lines 197–209). -/
def print_kv (obj : Json) (fields : List (String × String)) : List String :=
  printKvAux obj (maxLabelLen fields + 1) fields

/-- The `getself` field table (lines 129–136). -/
def getselfFields : List (String × String) :=
  [("Build name", "build_name"), ("Build version", "build_version"),
   ("Public key", "key"), ("IPv6 address", "address"),
   ("IPv6 subnet", "subnet"), ("Routing entries", "routing_entries")]

/-- The `getpeers` field table (lines 148–162). -/
def getpeersFields : List (String × String) :=
  [("URI", "uri"), ("Up", "up"), ("Inbound", "inbound"),
   ("Public key", "key"), ("IPv6 address", "address"),
   ("IPv6 subnet", "subnet"), ("Priority", "priority"),
   ("Bytes received", "bytes_recvd"), ("Bytes sent", "bytes_sent"),
   ("RX rate", "rx_rate"), ("TX rate", "tx_rate"),
   ("Uptime", "uptime"), ("Last error", "last_error")]

/-- The `gettree` field table (lines 177–182). -/
def gettreeFields : List (String × String) :=
  [("Public key", "key"), ("IPv6 address", "address"),
   ("Parent", "parent"), ("Sequence", "sequence")]

/-- The `list` arm (lines 117–126): header plus one indented line per
string element; non-strings skipped; nothing at all when `list` is
missing or not an array. -/
def renderList (response : Json) : List String :=
  match (response.get "list").bind Json.asArr with
  | some list =>
    "Available commands:" :: list.filterMap (fun c => (Json.asStr c).map (fun s => "  " ++ s))
  | none => []

/-- Entry blocks separated by one empty `println!()` line
(lines 144–147 / 173–176). -/
def joinBlocks : List (List String) → List String
  | [] => []
  | [b] => b
  | b :: c :: bs => b ++ "" :: joinBlocks (c :: bs)

/-- The shared `getpeers`/`gettree` arm body (lines 140–165 / 169–185):
empty array prints the fixed message, otherwise one `print_kv` block
per entry. -/
def renderBlocks (fields : List (String × String)) (emptyMsg : String)
    (entries : List Json) : List String :=
  if entries.isEmpty then [emptyMsg]
  else joinBlocks (entries.map (fun e => print_kv e fields))

/-- `str::to_lowercase` on the command name (ASCII case mapping, which
coincides with the implementation's Unicode mapping on every command
name the dispatch compares against). -/
def toLowercase (s : String) : String :=
  String.mk (s.data.map Char.toLower)

/-- The `match command.to_lowercase()` dispatch (lines 116–192),
producing the `println!` payloads written to standard output. -/
def renderCommand (command : String) (response : Json) : List String :=
  let cmd := toLowercase command
  if cmd = "list" then renderList response
  else if cmd = "getself" then print_kv response getselfFields
  else if cmd = "getpeers" then
    match (response.get "peers").bind Json.asArr with
    | some peers => renderBlocks getpeersFields "No peers connected." peers
    | none => []
  else if cmd = "gettree" then
    match (response.get "tree").bind Json.asArr with
    | some tree => renderBlocks gettreeFields "No tree entries." tree
    | none => []
  else [Json.prettyString response]

/-- Lines 99–102: `resp.get("status").and_then(as_str).unwrap_or("unknown")`. -/
def statusOf (resp : Json) : String :=
  ((resp.get "status").bind Json.asStr).getD "unknown"

/-- Lines 105–108: `resp.get("error").and_then(as_str).unwrap_or("unknown error")`. -/
def errorMessageOf (resp : Json) : String :=
  ((resp.get "error").bind Json.asStr).getD "unknown error"

/-- The observable fate of one invocation after the response line has
been parsed: raw JSON written to stdout and exit 0, an `Error:` line on
stderr and exit 1, or rendered stdout lines and exit 0. -/
inductive Outcome where
  | printedJson (text : String)
  | errorExit (message : String)
  | rendered (lines : List String)
deriving Repr, DecidableEq

/-- The process exit status of an outcome (`std::process::exit(1)` on
the error path, `Ok(())` otherwise). -/
def Outcome.exitCode : Outcome → Nat
  | .errorExit _ => 1
  | _ => 0

/-- `main`, lines 93–194: the JSON-mode early return, then the status
check, then the per-command rendering of `&resp["response"]`. -/
def handleResponse (jsonOutput : Bool) (command : String) (resp : Json) : Outcome :=
  if jsonOutput then .printedJson (Json.prettyString resp)
  else if statusOf resp ≠ "success" then .errorExit (errorMessageOf resp)
  else .rendered (renderCommand command (resp.index "response"))

/-! ## A JSON text parser

`serde_json::from_str::<Value>`, embedded as a recursive-descent parser
over character lists.  Container recursion is bounded by a fuel
parameter (the implementation bounds nesting by its recursion limit;
the top-level entry point supplies ample fuel for any input it can
represent).  Numbers are read as integers, matching the integral
numbers of the `Json` model. -/

/-- JSON insignificant whitespace. -/
def isWs (c : Char) : Bool :=
  c = ' ' || c = Char.ofNat 9 || c = Char.ofNat 10 || c = Char.ofNat 13

/-- Drop leading insignificant whitespace. -/
def skipWs : List Char → List Char
  | [] => []
  | c :: cs => if isWs c then skipWs cs else c :: cs

/-- The value of one hexadecimal digit character. -/
def hexVal (c : Char) : Option Nat :=
  if '0' ≤ c ∧ c ≤ '9' then some (c.toNat - 48)
  else if 'a' ≤ c ∧ c ≤ 'f' then some (c.toNat - 87)
  else if 'A' ≤ c ∧ c ≤ 'F' then some (c.toNat - 55)
  else none

/-- The character denoted by a single-character escape sequence. -/
def unescapeChar (e : Char) : Option Char :=
  if e = '"' then some '"'
  else if e = '\\' then some '\\'
  else if e = '/' then some '/'
  else if e = 'b' then some (Char.ofNat 8)
  else if e = 't' then some (Char.ofNat 9)
  else if e = 'n' then some (Char.ofNat 10)
  else if e = 'f' then some (Char.ofNat 12)
  else if e = 'r' then some (Char.ofNat 13)
  else none

/-- Parse a string body after its opening quote, returning the decoded
characters and the text after the closing quote. -/
def parseStringRest : List Char → Option (List Char × List Char)
  | [] => none
  | c :: rest =>
    if c = '"' then some ([], rest)
    else if c = '\\' then
      match rest with
      | [] => none
      | e :: rest2 =>
        if e = 'u' then
          match rest2 with
          | a :: b :: c2 :: d :: rest3 =>
            match hexVal a, hexVal b, hexVal c2, hexVal d with
            | some ha, some hb, some hc, some hd =>
              (parseStringRest rest3).map
                (fun p => (Char.ofNat (((ha * 16 + hb) * 16 + hc) * 16 + hd) :: p.1, p.2))
            | _, _, _, _ => none
          | _ => none
        else
          match unescapeChar e with
          | some u => (parseStringRest rest2).map (fun p => (u :: p.1, p.2))
          | none => none
    else (parseStringRest rest).map (fun p => (c :: p.1, p.2))

/-- Accumulate decimal digits. -/
def digitsVal (acc : Nat) : List Char → Nat × List Char
  | [] => (acc, [])
  | c :: cs =>
    if '0' ≤ c ∧ c ≤ '9' then digitsVal (acc * 10 + (c.toNat - 48)) cs
    else (acc, c :: cs)

/-- Parse a nonempty digit run. -/
def parseNat : List Char → Option (Nat × List Char)
  | [] => none
  | c :: cs =>
    if '0' ≤ c ∧ c ≤ '9' then some (digitsVal (c.toNat - 48) cs)
    else none

/-- Parse an (integral) JSON number. -/
def parseNumber : List Char → Option (Json × List Char)
  | '-' :: rest => (parseNat rest).map (fun p => (Json.num (-(p.1 : Int)), p.2))
  | input => (parseNat input).map (fun p => (Json.num (p.1 : Int), p.2))

mutual

/-- Parse one JSON value. -/
def parseValue : Nat → List Char → Option (Json × List Char)
  | 0, _ => none
  | fuel + 1, input =>
    match skipWs input with
    | [] => none
    | c :: rest =>
      if c = 'n' then
        match rest with
        | 'u' :: 'l' :: 'l' :: r => some (Json.null, r)
        | _ => none
      else if c = 't' then
        match rest with
        | 'r' :: 'u' :: 'e' :: r => some (Json.bool true, r)
        | _ => none
      else if c = 'f' then
        match rest with
        | 'a' :: 'l' :: 's' :: 'e' :: r => some (Json.bool false, r)
        | _ => none
      else if c = '"' then
        (parseStringRest rest).map (fun p => (Json.str (String.mk p.1), p.2))
      else if c = '[' then
        match skipWs rest with
        | ']' :: r => some (Json.arr [], r)
        | r2 => parseElems fuel [] r2
      else if c = '{' then
        match skipWs rest with
        | '}' :: r => some (Json.obj [], r)
        | r2 => parseMembers fuel [] r2
      else parseNumber (c :: rest)

/-- Parse the elements of a nonempty array, after `[`. -/
def parseElems : Nat → List Json → List Char → Option (Json × List Char)
  | 0, _, _ => none
  | fuel + 1, acc, input =>
    match parseValue fuel input with
    | none => none
    | some (v, rest) =>
      match skipWs rest with
      | ',' :: r => parseElems fuel (acc ++ [v]) r
      | ']' :: r => some (Json.arr (acc ++ [v]), r)
      | _ => none

/-- Parse the members of a nonempty object, after `{`, inserting each
`key:value` into the map. -/
def parseMembers : Nat → List (String × Json) → List Char → Option (Json × List Char)
  | 0, _, _ => none
  | fuel + 1, acc, input =>
    match skipWs input with
    | '"' :: r =>
      match parseStringRest r with
      | none => none
      | some (key, r2) =>
        match skipWs r2 with
        | ':' :: r3 =>
          match parseValue fuel r3 with
          | none => none
          | some (v, r4) =>
            match skipWs r4 with
            | ',' :: r5 => parseMembers fuel (mapInsert (String.mk key) v acc) r5
            | '}' :: r5 => some (Json.obj (mapInsert (String.mk key) v acc), r5)
            | _ => none
        | _ => none
    | _ => none

end

/-- `serde_json::from_str::<Value>`: parse one value and require only
whitespace after it. -/
def jsonParse (s : String) : Option Json :=
  match parseValue (s.data.length + 1) s.data with
  | some (v, rest) => if (skipWs rest).isEmpty then some v else none
  | none => none

/-- `fields.map(|(k, v)| (k, Value::String(v)))`: a map whose values are
all JSON strings, as the `arguments` map always is. -/
def fieldsJson (args : List (String × String)) : List (String × Json) :=
  args.map (fun kv => (kv.1, Json.str kv.2))

/-! ## Supporting lemmas -/

theorem stringMk_data (s : String) : String.mk s.data = s := by
  cases s
  rfl

theorem hexVal_hexDigitOf : ∀ n, n < 16 → hexVal (hexDigitOf n) = some n := by
  decide

theorem skipWs_not_ws (c : Char) (l : List Char) (h : isWs c = false) :
    skipWs (c :: l) = c :: l := by
  simp [skipWs, h]

theorem splitOnceChar_of_not_mem (c : Char) :
    ∀ l : List Char, c ∉ l → splitOnceChar c l = none := by
  intro l h
  induction l with
  | nil => rfl
  | cons x xs ih =>
    have hx : ¬ x = c := fun e => h (e ▸ List.mem_cons_self x xs)
    have hxs : c ∉ xs := fun m => h (List.mem_cons_of_mem x m)
    simp [splitOnceChar, hx, ih hxs]

theorem splitOnceChar_first (c : Char) :
    ∀ pre post : List Char, c ∉ pre →
      splitOnceChar c (pre ++ c :: post) = some (pre, post) := by
  intro pre post h
  induction pre with
  | nil => simp [splitOnceChar]
  | cons x xs ih =>
    have hx : ¬ x = c := fun e => h (e ▸ List.mem_cons_self x xs)
    have hxs : c ∉ xs := fun m => h (List.mem_cons_of_mem x m)
    simp [splitOnceChar, hx, ih hxs]

theorem parseStringRest_quote (l : List Char) :
    parseStringRest ('"' :: l) = some ([], l) := by
  rw [parseStringRest.eq_def]
  simp

theorem parseStringRest_plain (c : Char) (l : List Char)
    (h1 : ¬ c = '"') (h2 : ¬ c = '\\') :
    parseStringRest (c :: l) = (parseStringRest l).map (fun p => (c :: p.1, p.2)) := by
  rw [parseStringRest.eq_def]
  simp [h1, h2]

theorem parseStringRest_esc (e u : Char) (l : List Char)
    (hne : ¬ e = 'u') (hu : unescapeChar e = some u) :
    parseStringRest ('\\' :: e :: l) = (parseStringRest l).map (fun p => (u :: p.1, p.2)) := by
  rw [parseStringRest.eq_def]
  simp [hne, hu, show ¬ ('\\' : Char) = '"' by decide]

theorem parseStringRest_u (a b c d : Char) (ha hb hc hd : Nat) (l : List Char)
    (h1 : hexVal a = some ha) (h2 : hexVal b = some hb)
    (h3 : hexVal c = some hc) (h4 : hexVal d = some hd) :
    parseStringRest ('\\' :: 'u' :: a :: b :: c :: d :: l) =
      (parseStringRest l).map
        (fun p => (Char.ofNat (((ha * 16 + hb) * 16 + hc) * 16 + hd) :: p.1, p.2)) := by
  rw [parseStringRest.eq_def]
  simp [h1, h2, h3, h4, show ¬ ('\\' : Char) = '"' by decide]

/-- Parsing back the escape sequence of any character recovers the
character. -/
theorem parseStringRest_escapeChar (c : Char) (l : List Char) :
    parseStringRest (escapeChar c ++ l) =
      (parseStringRest l).map (fun p => (c :: p.1, p.2)) := by
  by_cases h1 : c = '"'
  · subst h1
    rw [show escapeChar '"' = ['\\', '"'] from rfl]
    simpa using parseStringRest_esc '"' '"' l (by decide) (by rfl)
  by_cases h2 : c = '\\'
  · subst h2
    rw [show escapeChar '\\' = ['\\', '\\'] from rfl]
    simpa using parseStringRest_esc '\\' '\\' l (by decide) (by rfl)
  by_cases h3 : c = Char.ofNat 8
  · subst h3
    rw [show escapeChar (Char.ofNat 8) = ['\\', 'b'] from rfl]
    simpa using parseStringRest_esc 'b' (Char.ofNat 8) l (by decide) (by rfl)
  by_cases h4 : c = Char.ofNat 9
  · subst h4
    rw [show escapeChar (Char.ofNat 9) = ['\\', 't'] from rfl]
    simpa using parseStringRest_esc 't' (Char.ofNat 9) l (by decide) (by rfl)
  by_cases h5 : c = Char.ofNat 10
  · subst h5
    rw [show escapeChar (Char.ofNat 10) = ['\\', 'n'] from rfl]
    simpa using parseStringRest_esc 'n' (Char.ofNat 10) l (by decide) (by rfl)
  by_cases h6 : c = Char.ofNat 12
  · subst h6
    rw [show escapeChar (Char.ofNat 12) = ['\\', 'f'] from rfl]
    simpa using parseStringRest_esc 'f' (Char.ofNat 12) l (by decide) (by rfl)
  by_cases h7 : c = Char.ofNat 13
  · subst h7
    rw [show escapeChar (Char.ofNat 13) = ['\\', 'r'] from rfl]
    simpa using parseStringRest_esc 'r' (Char.ofNat 13) l (by decide) (by rfl)
  by_cases h8 : c.toNat < 32
  · rw [show escapeChar c =
        ['\\', 'u', '0', '0', hexDigitOf (c.toNat / 16), hexDigitOf (c.toNat % 16)] by
      simp [escapeChar, h1, h2, h3, h4, h5, h6, h7, h8]]
    rw [List.cons_append, List.cons_append, List.cons_append, List.cons_append,
      List.cons_append, List.cons_append, List.nil_append]
    rw [parseStringRest_u '0' '0' (hexDigitOf (c.toNat / 16)) (hexDigitOf (c.toNat % 16))
      0 0 (c.toNat / 16) (c.toNat % 16) l (by rfl) (by rfl)
      (hexVal_hexDigitOf (c.toNat / 16) (by omega))
      (hexVal_hexDigitOf (c.toNat % 16) (by omega))]
    rw [show ((0 * 16 + 0) * 16 + c.toNat / 16) * 16 + c.toNat % 16 = c.toNat by omega]
    rw [Char.ofNat_toNat]
  · rw [show escapeChar c = [c] by simp [escapeChar, h1, h2, h3, h4, h5, h6, h7, h8]]
    rw [List.cons_append, List.nil_append]
    exact parseStringRest_plain c l h1 h2

/-- Round trip for whole string bodies: parsing the escaped text up to
the closing quote recovers the original characters and the remainder. -/
theorem parseStringRest_escape : ∀ s rest : List Char,
    parseStringRest (escapeList s ++ '"' :: rest) = some (s, rest) := by
  intro s rest
  induction s with
  | nil => simpa using parseStringRest_quote rest
  | cons c cs ih =>
    show parseStringRest ((escapeChar c ++ escapeList cs) ++ '"' :: rest) = _
    rw [List.append_assoc, parseStringRest_escapeChar, ih]
    rfl

/-- Inserting a key greater than everything in the map appends it. -/
theorem mapInsert_append (k : String) (v : Json) :
    ∀ acc : List (String × Json), (∀ p ∈ acc, p.1 < k) →
      mapInsert k v acc = acc ++ [(k, v)] := by
  intro acc h
  induction acc with
  | nil => rfl
  | cons p rest ih =>
    obtain ⟨k', v'⟩ := p
    have hp : k' < k := h (k', v') (List.mem_cons_self _ rest)
    have h1 : ¬ k < k' := lt_asymm hp
    have h2 : ¬ k = k' := ne_of_gt hp
    have ht : ∀ q ∈ rest, q.1 < k := fun q hq => h q (List.mem_cons_of_mem _ hq)
    simp [mapInsert, h1, h2, ih ht]

theorem quoteString_append (s : String) (l : List Char) :
    quoteString s ++ l = '"' :: (escapeList s.data ++ '"' :: l) := by
  simp [quoteString]

/-- One parser step: a quoted, escaped key followed by a colon. -/
theorem parseMembers_step (fuel : Nat) (acc : List (String × Json)) (k : String)
    (tail : List Char) :
    parseMembers (fuel + 1) acc ('"' :: (escapeList k.data ++ '"' :: ':' :: tail)) =
      match parseValue fuel tail with
      | none => none
      | some (v, r4) =>
        match skipWs r4 with
        | ',' :: r5 => parseMembers fuel (mapInsert k v acc) r5
        | '}' :: r5 => some (Json.obj (mapInsert k v acc), r5)
        | _ => none := by
  rw [parseMembers.eq_def]
  simp [skipWs_not_ws _ _ (show isWs '"' = false from rfl),
    skipWs_not_ws _ _ (show isWs ':' = false from rfl),
    parseStringRest_escape, stringMk_data]

/-- A member whose value parse ends right before `}` closes the object. -/
theorem parseMembers_step_done (fuel : Nat) (acc : List (String × Json)) (k : String)
    (tail r : List Char) (v : Json) (hv : parseValue fuel tail = some (v, '}' :: r)) :
    parseMembers (fuel + 1) acc ('"' :: (escapeList k.data ++ '"' :: ':' :: tail)) =
      some (Json.obj (mapInsert k v acc), r) := by
  rw [parseMembers_step, hv]
  simp [skipWs_not_ws _ _ (show isWs '}' = false from rfl)]

/-- A member whose value parse ends right before `,` continues the
member loop with the binding inserted. -/
theorem parseMembers_step_more (fuel : Nat) (acc : List (String × Json)) (k : String)
    (tail r : List Char) (v : Json) (hv : parseValue fuel tail = some (v, ',' :: r)) :
    parseMembers (fuel + 1) acc ('"' :: (escapeList k.data ++ '"' :: ':' :: tail)) =
      parseMembers fuel (mapInsert k v acc) r := by
  rw [parseMembers_step, hv]
  simp [skipWs_not_ws _ _ (show isWs ',' = false from rfl)]

/-- One parser step: a JSON string value. -/
theorem parseValue_str (fuel : Nat) (s : String) (l : List Char) :
    parseValue (fuel + 1) ('"' :: (escapeList s.data ++ '"' :: l)) =
      some (Json.str s, l) := by
  rw [parseValue.eq_def]
  simp [skipWs_not_ws _ _ (show isWs '"' = false from rfl),
    parseStringRest_escape, stringMk_data]

/-- One parser step: the literal `false`. -/
theorem parseValue_false (fuel : Nat) (l : List Char) :
    parseValue (fuel + 1) ('f' :: 'a' :: 'l' :: 's' :: 'e' :: l) =
      some (Json.bool false, l) := by
  rw [parseValue.eq_def]
  simp [skipWs_not_ws _ _ (show isWs 'f' = false from rfl)]

/-- Members round trip for a nonempty block of string-valued fields
whose sorted keys all exceed the sorted keys of the accumulator. -/
theorem parseMembers_strFields :
    ∀ (fs : List (String × String)) (k v : String) (acc : List (String × Json)) (f : Nat)
      (rest : List Char),
      List.Pairwise (· < ·) (acc.map Prod.fst ++ k :: fs.map Prod.fst) →
      parseMembers (fs.length + f + 2) acc
          (compactFields (fieldsJson ((k, v) :: fs)) ++ '}' :: rest)
        = some (Json.obj (acc ++ fieldsJson ((k, v) :: fs)), rest) := by
  intro fs
  induction fs with
  | nil =>
    intro k v acc f rest hsort
    have hacc : ∀ p ∈ acc, p.1 < k := by
      intro p hp
      exact (List.pairwise_append.mp hsort).2.2 p.1 (List.mem_map_of_mem Prod.fst hp)
        k (List.mem_cons_self _ _)
    have hin : compactFields (fieldsJson [(k, v)]) ++ '}' :: rest =
        '"' :: (escapeList k.data ++ '"' :: ':' ::
          ('"' :: (escapeList v.data ++ '"' :: '}' :: rest))) := by
      simp [fieldsJson, compactFields, Json.compact, quoteString, List.append_assoc]
    rw [hin]
    simp only [List.length_nil]
    rw [show 0 + f + 2 = (f + 1) + 1 by omega]
    rw [parseMembers_step_done (f + 1) acc k _ rest (Json.str v) (parseValue_str f v ('}' :: rest))]
    rw [mapInsert_append k (Json.str v) acc hacc]
    simp [fieldsJson]
  | cons p fs2 ih =>
    obtain ⟨k2, v2⟩ := p
    intro k v acc f rest hsort
    have hacc : ∀ p ∈ acc, p.1 < k := by
      intro p hp
      exact (List.pairwise_append.mp hsort).2.2 p.1 (List.mem_map_of_mem Prod.fst hp)
        k (List.mem_cons_self _ _)
    have hin : compactFields (fieldsJson ((k, v) :: (k2, v2) :: fs2)) ++ '}' :: rest =
        '"' :: (escapeList k.data ++ '"' :: ':' ::
          ('"' :: (escapeList v.data ++ '"' :: ',' ::
            (compactFields (fieldsJson ((k2, v2) :: fs2)) ++ '}' :: rest)))) := by
      simp [fieldsJson, compactFields, Json.compact, quoteString, List.append_assoc]
    rw [hin]
    simp only [List.length_cons]
    rw [show fs2.length + 1 + f + 2 = ((fs2.length + f + 1) + 1) + 1 by omega]
    rw [parseMembers_step_more ((fs2.length + f + 1) + 1) acc k _ _ (Json.str v)
      (parseValue_str (fs2.length + f + 1) v _)]
    rw [mapInsert_append k (Json.str v) acc hacc]
    have hsort2 : List.Pairwise (· < ·)
        ((acc ++ [(k, Json.str v)]).map Prod.fst ++ k2 :: fs2.map Prod.fst) := by
      simpa [List.append_assoc] using hsort
    rw [show fs2.length + f + 1 + 1 = fs2.length + f + 2 by omega]
    rw [ih k2 v2 (acc ++ [(k, Json.str v)]) f rest hsort2]
    simp [fieldsJson, List.append_assoc]

/-- One parser step: a `{` opening a nonempty object defers to the
member loop. -/
theorem parseValue_obj_go (fuel : Nat) (c0 : Char) (l0 : List Char)
    (h0 : isWs c0 = false) (hne : ¬ c0 = '}') :
    parseValue (fuel + 1) ('{' :: c0 :: l0) = parseMembers fuel [] (c0 :: l0) := by
  rw [parseValue.eq_def]
  simp [skipWs_not_ws _ _ (show isWs '{' = false from rfl), skipWs_not_ws _ _ h0, hne]

/-- Round trip for the serialized `arguments` object. -/
theorem parseValue_argsObj (args : List (String × String)) (f : Nat) (rest : List Char)
    (hsort : List.Pairwise (· < ·) (args.map Prod.fst)) :
    parseValue (args.length + f + 3) ('{' :: (compactFields (fieldsJson args) ++ '}' :: rest))
      = some (Json.obj (fieldsJson args), rest) := by
  cases args with
  | nil =>
    simp only [fieldsJson, List.map_nil, compactFields, List.nil_append, List.length_nil]
    rw [show 0 + f + 3 = (f + 2) + 1 by omega]
    rw [parseValue.eq_def]
    simp [skipWs_not_ws _ _ (show isWs '{' = false from rfl),
      skipWs_not_ws _ _ (show isWs '}' = false from rfl)]
  | cons p ps =>
    obtain ⟨k, v⟩ := p
    have hsplit : ∃ t, compactFields (fieldsJson ((k, v) :: ps)) ++ '}' :: rest = '"' :: t := by
      cases ps with
      | nil =>
        refine ⟨'"' :: (escapeList k.data ++ '"' :: ':' ::
          ('"' :: (escapeList v.data ++ '"' :: '}' :: rest))) |>.tail, ?_⟩
        simp [fieldsJson, compactFields, Json.compact, quoteString, List.append_assoc]
      | cons q qs =>
        obtain ⟨k2, v2⟩ := q
        refine ⟨'"' :: (escapeList k.data ++ '"' :: ':' ::
          ('"' :: (escapeList v.data ++ '"' :: ',' ::
            (compactFields (fieldsJson ((k2, v2) :: qs)) ++ '}' :: rest)))) |>.tail, ?_⟩
        simp [fieldsJson, compactFields, Json.compact, quoteString, List.append_assoc]
    obtain ⟨t, ht⟩ := hsplit
    simp only [List.length_cons]
    rw [show ps.length + 1 + f + 3 = (ps.length + (f + 1) + 2) + 1 by omega]
    rw [ht, parseValue_obj_go _ '"' t (by rfl) (by decide), ← ht]
    exact parseMembers_strFields ps k v [] (f + 1) rest (by simpa [fieldsJson] using hsort)

/-- A printed member list is at least as long as the member count. -/
theorem compactFields_length_ge : ∀ l : List (String × Json),
    l.length ≤ (compactFields l).length := by
  intro l
  induction l with
  | nil => simp [compactFields]
  | cons p tl ih =>
    obtain ⟨k, v⟩ := p
    cases tl with
    | nil => simp [compactFields, quoteString]
    | cons q qs =>
      simp only [compactFields, List.length_cons, List.length_append, quoteString]
      simp at ih ⊢
      omega

/-- The request object in its sorted normal form. -/
theorem buildRequest_eq (cmd : String) (args : List (String × Json)) :
    buildRequest cmd args = Json.obj [("arguments", Json.obj args),
      ("keepalive", Json.bool false), ("request", Json.str cmd)] := by
  unfold buildRequest
  rw [show mapInsert "request" (Json.str cmd) [] = [("request", Json.str cmd)] from rfl]
  rw [show mapInsert "arguments" (Json.obj args) [("request", Json.str cmd)] =
      [("arguments", Json.obj args), ("request", Json.str cmd)] by
    simp [mapInsert, show ("arguments" : String) < "request" by
      rw [String.lt_iff_toList_lt]; decide]]
  simp [mapInsert,
    show ¬ ("keepalive" : String) < "arguments" by rw [String.lt_iff_toList_lt]; decide,
    show ¬ ("keepalive" : String) = "arguments" by decide,
    show ("keepalive" : String) < "request" by rw [String.lt_iff_toList_lt]; decide]

theorem jsonParse_mk (l : List Char) :
    jsonParse (String.mk l) =
      match parseValue (l.length + 1) l with
      | some (v, rest) => if (skipWs rest).isEmpty then some v else none
      | none => none := rfl

/-- Parsing the compact serialization of the built request, with ample
fuel, recovers the request object exactly. -/
theorem parseValue_request (cmd : String) (args : List (String × String)) (f : Nat)
    (rest : List Char) (hsort : List.Pairwise (· < ·) (args.map Prod.fst)) :
    parseValue (args.length + f + 5)
        (Json.compact (buildRequest cmd (fieldsJson args)) ++ rest)
      = some (buildRequest cmd (fieldsJson args), rest) := by
  rw [buildRequest_eq]
  have hc : Json.compact (Json.obj [("arguments", Json.obj (fieldsJson args)),
      ("keepalive", Json.bool false), ("request", Json.str cmd)]) ++ rest =
    '{' :: ('"' :: (escapeList "arguments".data ++ '"' :: ':' ::
      ('{' :: (compactFields (fieldsJson args) ++ '}' :: ',' ::
        ('"' :: (escapeList "keepalive".data ++ '"' :: ':' ::
          ('f' :: 'a' :: 'l' :: 's' :: 'e' :: ',' ::
            ('"' :: (escapeList "request".data ++ '"' :: ':' ::
              ('"' :: (escapeList cmd.data ++ '"' :: '}' :: rest))))))))))) := by
    simp [Json.compact, compactFields, quoteString, falseLit, List.append_assoc]
  rw [hc]
  rw [show args.length + f + 5 = (args.length + f + 4) + 1 by omega]
  rw [parseValue_obj_go _ '"' _ (by rfl) (by decide)]
  rw [show args.length + f + 4 = (args.length + f + 3) + 1 by omega]
  rw [parseMembers_step_more _ _ "arguments" _ _ _ (parseValue_argsObj args f _ hsort)]
  rw [show mapInsert "arguments" (Json.obj (fieldsJson args)) [] =
    [("arguments", Json.obj (fieldsJson args))] from rfl]
  rw [show args.length + f + 3 = ((args.length + f + 1) + 1) + 1 by omega]
  rw [parseMembers_step_more _ _ "keepalive" _ _ _
    (parseValue_false (args.length + f + 1) _)]
  rw [show mapInsert "keepalive" (Json.bool false)
        [("arguments", Json.obj (fieldsJson args))] =
      [("arguments", Json.obj (fieldsJson args)), ("keepalive", Json.bool false)] by
    simp [mapInsert,
      show ¬ ("keepalive" : String) < "arguments" by rw [String.lt_iff_toList_lt]; decide,
      show ¬ ("keepalive" : String) = "arguments" by decide]]
  rw [parseMembers_step_done _ _ "request" _ _ _ (parseValue_str (args.length + f) cmd _)]
  rw [show mapInsert "request" (Json.str cmd)
        [("arguments", Json.obj (fieldsJson args)), ("keepalive", Json.bool false)] =
      [("arguments", Json.obj (fieldsJson args)), ("keepalive", Json.bool false),
        ("request", Json.str cmd)] by
    simp [mapInsert,
      show ¬ ("request" : String) < "arguments" by rw [String.lt_iff_toList_lt]; decide,
      show ¬ ("request" : String) = "arguments" by decide,
      show ¬ ("request" : String) < "keepalive" by rw [String.lt_iff_toList_lt]; decide,
      show ¬ ("request" : String) = "keepalive" by decide]]

/-- Serializing the built request and parsing the text back recovers
the request object. -/
theorem jsonParse_compact_request (cmd : String) (args : List (String × String))
    (hsort : List.Pairwise (· < ·) (args.map Prod.fst)) :
    jsonParse (Json.compactString (buildRequest cmd (fieldsJson args)))
      = some (buildRequest cmd (fieldsJson args)) := by
  have h1 := compactFields_length_ge (fieldsJson args)
  have h2 : (fieldsJson args).length = args.length := by simp [fieldsJson]
  have hlen : args.length + 4 ≤ (Json.compact (buildRequest cmd (fieldsJson args))).length := by
    rw [buildRequest_eq]
    simp [Json.compact, compactFields, quoteString]
    omega
  obtain ⟨f, hf⟩ : ∃ f,
      (Json.compact (buildRequest cmd (fieldsJson args))).length + 1 =
        args.length + f + 5 :=
    ⟨(Json.compact (buildRequest cmd (fieldsJson args))).length - args.length - 4, by omega⟩
  have hp := parseValue_request cmd args f [] hsort
  rw [List.append_nil] at hp
  simp only [Json.compactString]
  rw [jsonParse_mk, hf, hp]
  simp [skipWs]

/-- The member loop of `print_kv` as a `filterMap`: one line per field
present in the object, in table order. -/
theorem printKvAux_filterMap (o : Json) (w : Nat) :
    ∀ fields : List (String × String),
      printKvAux o w fields = fields.filterMap
        (fun lk => (o.get lk.2).map (fun v => kvLine w lk.1 (valueDisplay v))) := by
  intro fields
  induction fields with
  | nil => rfl
  | cons lk rest ih =>
    obtain ⟨label, key⟩ := lk
    cases h : o.get key with
    | none => simp [printKvAux, h, ih]
    | some v => simp [printKvAux, h, ih]

/-! ## Concrete wire values used by the individual claims -/

/-- An error response carrying a string `error` field. -/
def respBoom : Json := Json.obj [("error", Json.str "boom"), ("status", Json.str "error")]

/-- An error response whose `error` field is a number, not a string. -/
def respErrNum : Json := Json.obj [("error", Json.num 5), ("status", Json.str "error")]

/-- The `getself` scenario payload of the specification. -/
def payloadGetself : Json := Json.obj [
  ("address", Json.str "200:1234::1"),
  ("build_name", Json.str "yggdrasil"),
  ("build_version", Json.str "0.5"),
  ("key", Json.str "abcd"),
  ("routing_entries", Json.num 42),
  ("subnet", Json.str "200:1234::/64")]

/-- The `getself` scenario success response. -/
def respGetself : Json :=
  Json.obj [("response", payloadGetself), ("status", Json.str "success")]

/-- A success response with an empty `peers` array. -/
def respPeersEmpty : Json :=
  Json.obj [("response", Json.obj [("peers", Json.arr [])]), ("status", Json.str "success")]

/-- A success response with an empty `tree` array. -/
def respTreeEmpty : Json :=
  Json.obj [("response", Json.obj [("tree", Json.arr [])]), ("status", Json.str "success")]

/-- A success response with no `response` payload at all. -/
def respBare : Json := Json.obj [("status", Json.str "success")]

/-! ## The claims -/

/-- Claim C1 (counterexample): with JSON output requested, a response
whose `status` is not `"success"` is printed as raw JSON and the
process exits with status zero, so the claim's "for every invocation
... exits with a non-zero status" fails at this input. -/
theorem c1_counterexample :
    statusOf respBoom ≠ "success" ∧
      (handleResponse true "getself" respBoom).exitCode = 0 := by
  exact ⟨by decide, rfl⟩

/-- Claim C1 (amended): for every invocation in which JSON output mode
is not requested, if the response parses but its `status` is not the
literal string `"success"`, the client reports the response's string
`error` field (or the literal `"unknown error"` when no string `error`
is available) and the process exits with a non-zero status. -/
theorem c1_protocol_error_reported (cmd : String) (resp : Json)
    (hs : statusOf resp ≠ "success") :
    handleResponse false cmd resp = Outcome.errorExit (errorMessageOf resp) ∧
    (handleResponse false cmd resp).exitCode ≠ 0 ∧
    ((resp.get "error").bind Json.asStr = some (errorMessageOf resp) ∨
      ((resp.get "error").bind Json.asStr = none ∧ errorMessageOf resp = "unknown error")) := by
  have h1 : handleResponse false cmd resp = Outcome.errorExit (errorMessageOf resp) := by
    simp [handleResponse, hs]
  refine ⟨h1, by rw [h1]; simp [Outcome.exitCode], ?_⟩
  cases hcase : (resp.get "error").bind Json.asStr with
  | none =>
    right
    exact ⟨rfl, by unfold errorMessageOf; rw [hcase]; rfl⟩
  | some s =>
    left
    unfold errorMessageOf
    rw [hcase]
    rfl

/-- Claim C1 (witness for the amended theorem). -/
theorem c1_protocol_error_reported_witness :
    statusOf respBoom ≠ "success" ∧
      (handleResponse false "getself" respBoom = Outcome.errorExit (errorMessageOf respBoom) ∧
        (handleResponse false "getself" respBoom).exitCode ≠ 0 ∧
        ((respBoom.get "error").bind Json.asStr = some (errorMessageOf respBoom) ∨
          ((respBoom.get "error").bind Json.asStr = none ∧
            errorMessageOf respBoom = "unknown error"))) :=
  ⟨by decide, c1_protocol_error_reported "getself" respBoom (by decide)⟩

/-- Claim C2: with JSON output requested the outcome is exactly the
pretty-printed full response wrapper, for any command and any response
(success or error alike), and it does not depend on the command at
all — no per-command rendering takes part. -/
theorem c2_json_mode_full_wrapper (cmd cmd2 : String) (resp : Json) :
    handleResponse true cmd resp = Outcome.printedJson (Json.prettyString resp) ∧
    handleResponse true cmd resp = handleResponse true cmd2 resp :=
  ⟨rfl, rfl⟩

/-- Claim C3 (counterexample): on the specification's `getself`
scenario the first output line is `  Build name:       yggdrasil`
(seven spaces after the colon) and the last is
`  Routing entries:  42` (two spaces), not the spacing the claim
states, which has one extra space on each of the two lines. -/
theorem c3_counterexample :
    handleResponse false "getself" respGetself = Outcome.rendered
      ["  Build name:       yggdrasil", "  Build version:    0.5",
       "  Public key:       abcd", "  IPv6 address:     200:1234::1",
       "  IPv6 subnet:      200:1234::/64", "  Routing entries:  42"] ∧
    ["  Build name:       yggdrasil", "  Build version:    0.5",
       "  Public key:       abcd", "  IPv6 address:     200:1234::1",
       "  IPv6 subnet:      200:1234::/64", "  Routing entries:  42"].head? ≠
      some "  Build name:        yggdrasil" ∧
    ["  Build name:       yggdrasil", "  Build version:    0.5",
       "  Public key:       abcd", "  IPv6 address:     200:1234::1",
       "  IPv6 subnet:      200:1234::/64", "  Routing entries:  42"].getLast? ≠
      some "  Routing entries:   42" := by
  refine ⟨by decide, by decide, by decide⟩

/-- Claim C3 (amended): on the `getself` scenario payload the non-JSON
output is exactly six lines, the colon-suffixed labels padded to the
width of the longest label plus one, the first line being
`  Build name:       yggdrasil` and the last
`  Routing entries:  42`. -/
theorem c3_getself_scenario :
    handleResponse false "getself" respGetself = Outcome.rendered
      ["  Build name:       yggdrasil", "  Build version:    0.5",
       "  Public key:       abcd", "  IPv6 address:     200:1234::1",
       "  IPv6 subnet:      200:1234::/64", "  Routing entries:  42"] := by
  decide

/-- Claim C4: the key-value rendering emits exactly one line per
(label, field) pair whose field is present in the object — absent
fields produce no line at all — and a present field holding JSON null
is displayed as `n/a`. -/
theorem c4_null_na_absent_omitted (o : Json) (fields : List (String × String)) :
    print_kv o fields = fields.filterMap
      (fun lk => (o.get lk.2).map
        (fun v => kvLine (maxLabelLen fields + 1) lk.1 (valueDisplay v))) ∧
    valueDisplay Json.null = "n/a" :=
  ⟨printKvAux_filterMap o (maxLabelLen fields + 1) fields, rfl⟩

/-- Claim C5: trailing tokens none of which contains `=` contribute
nothing: the arguments map of the request is empty. -/
theorem c5_no_equals_empty_arguments (tokens : List String)
    (h : ∀ t ∈ tokens, '=' ∉ t.data) : parseArguments tokens = [] := by
  have haux : ∀ ts : List String, (∀ t ∈ ts, '=' ∉ t.data) → ∀ acc,
      ts.foldl
        (fun acc arg =>
          match splitOnce arg '=' with
          | some (k, v) => mapInsert k (Json.str v) acc
          | none => acc) acc = acc := by
    intro ts
    induction ts with
    | nil => intro _ acc; rfl
    | cons t ts2 ih =>
      intro hall acc
      have hsplit : splitOnce t '=' = none := by
        unfold splitOnce
        rw [splitOnceChar_of_not_mem '=' t.data (hall t (List.mem_cons_self t ts2))]
        rfl
      simp only [List.foldl_cons, hsplit]
      exact ih (fun t2 m => hall t2 (List.mem_cons_of_mem t m)) acc
  exact haux tokens h []

/-- Claim C5 (witness). -/
theorem c5_no_equals_empty_arguments_witness :
    (∀ t ∈ ["getPeers", "somearg"], '=' ∉ t.data) ∧
      parseArguments ["getPeers", "somearg"] = [] :=
  ⟨by decide, c5_no_equals_empty_arguments ["getPeers", "somearg"] (by decide)⟩

/-- Claim C6: a trailing token with at least one `=` splits at its
first `=`; the part before becomes the key and everything after —
further `=` characters included — becomes the value, stored in the
arguments map as a JSON string. -/
theorem c6_split_at_first_equals (pre post : List Char) (h : '=' ∉ pre) :
    splitOnce (String.mk (pre ++ '=' :: post)) '=' =
      some (String.mk pre, String.mk post) ∧
    parseArguments [String.mk (pre ++ '=' :: post)] =
      [(String.mk pre, Json.str (String.mk post))] := by
  have hs : splitOnce (String.mk (pre ++ '=' :: post)) '=' =
      some (String.mk pre, String.mk post) := by
    unfold splitOnce
    rw [show (String.mk (pre ++ '=' :: post)).data = pre ++ '=' :: post from rfl]
    rw [splitOnceChar_first '=' pre post h]
    rfl
  refine ⟨hs, ?_⟩
  unfold parseArguments
  simp only [List.foldl_cons, List.foldl_nil, hs]
  rfl

/-- Claim C6 (witness): `"a=b=c"` yields key `"a"` and value `"b=c"`. -/
theorem c6_split_at_first_equals_witness :
    splitOnce "a=b=c" '=' = some ("a", "b=c") ∧
      parseArguments ["a=b=c"] = [("a", Json.str "b=c")] :=
  c6_split_at_first_equals "a".data "b=c".data (by decide)

/-- Claim C7: on a success response whose payload carries an empty
`peers` (resp. `tree`) array, the `getpeers` (resp. `gettree`) command
renders exactly the one fixed line. -/
theorem c7_empty_arrays_fixed_line (resp : Json) (hs : statusOf resp = "success") :
    ((resp.index "response").get "peers" = some (Json.arr []) →
      handleResponse false "getpeers" resp =
        Outcome.rendered ["No peers connected."]) ∧
    ((resp.index "response").get "tree" = some (Json.arr []) →
      handleResponse false "gettree" resp =
        Outcome.rendered ["No tree entries."]) := by
  constructor
  · intro hp
    simp [handleResponse, hs, renderCommand, hp, renderBlocks,
      show toLowercase "getpeers" = "getpeers" from rfl, Json.asArr]
  · intro hp
    simp [handleResponse, hs, renderCommand, hp, renderBlocks,
      show toLowercase "gettree" = "gettree" from rfl, Json.asArr]

/-- Claim C7 (witness). -/
theorem c7_empty_arrays_fixed_line_witness :
    (handleResponse false "getpeers" respPeersEmpty =
      Outcome.rendered ["No peers connected."]) ∧
    (handleResponse false "gettree" respTreeEmpty =
      Outcome.rendered ["No tree entries."]) :=
  ⟨(c7_empty_arrays_fixed_line respPeersEmpty rfl).1 rfl,
   (c7_empty_arrays_fixed_line respTreeEmpty rfl).2 rfl⟩

/-- Claim C8: for every command name and every (sorted, string-valued)
arguments map, serializing the built request to its single-line JSON
form and parsing the text back yields the very request object: its
`request` field is the command, its `arguments` field is the map, and
its `keepalive` field is `false`. -/
theorem c8_request_roundtrip (cmd : String) (args : List (String × String))
    (hsort : List.Pairwise (· < ·) (args.map Prod.fst)) :
    jsonParse (Json.compactString (buildRequest cmd (fieldsJson args)))
        = some (buildRequest cmd (fieldsJson args)) ∧
    (buildRequest cmd (fieldsJson args)).get "request" = some (Json.str cmd) ∧
    (buildRequest cmd (fieldsJson args)).get "arguments"
        = some (Json.obj (fieldsJson args)) ∧
    (buildRequest cmd (fieldsJson args)).get "keepalive" = some (Json.bool false) := by
  refine ⟨jsonParse_compact_request cmd args hsort, ?_, ?_, ?_⟩ <;>
    rw [buildRequest_eq] <;>
    simp [Json.get, lookupField]

/-- Claim C8 (witness). -/
theorem c8_request_roundtrip_witness :
    List.Pairwise (· < ·) ([("uri", "tcp://[::1]:9001")].map
      (Prod.fst (α := String) (β := String))) ∧
    (jsonParse (Json.compactString
        (buildRequest "addPeer" (fieldsJson [("uri", "tcp://[::1]:9001")])))
        = some (buildRequest "addPeer" (fieldsJson [("uri", "tcp://[::1]:9001")])) ∧
      (buildRequest "addPeer" (fieldsJson [("uri", "tcp://[::1]:9001")])).get "request"
        = some (Json.str "addPeer") ∧
      (buildRequest "addPeer" (fieldsJson [("uri", "tcp://[::1]:9001")])).get "arguments"
        = some (Json.obj (fieldsJson [("uri", "tcp://[::1]:9001")])) ∧
      (buildRequest "addPeer" (fieldsJson [("uri", "tcp://[::1]:9001")])).get "keepalive"
        = some (Json.bool false)) :=
  ⟨by simp, c8_request_roundtrip "addPeer" [("uri", "tcp://[::1]:9001")] (by simp)⟩

/-- Claim C9: a failure response whose `error` field is present but is
not a JSON string is reported with the fallback message
`unknown error`, exactly as when the field is absent. -/
theorem c9_nonstring_error_fallback (cmd : String) (resp : Json) (v : Json)
    (hs : statusOf resp ≠ "success") (he : resp.get "error" = some v)
    (hv : v.asStr = none) :
    handleResponse false cmd resp = Outcome.errorExit "unknown error" ∧
    errorMessageOf resp = "unknown error" := by
  have hm : errorMessageOf resp = "unknown error" := by
    unfold errorMessageOf
    rw [he]
    simp [hv]
  exact ⟨by simp [handleResponse, hs, hm], hm⟩

/-- Claim C9 (witness): a numeric `error` field falls back. -/
theorem c9_nonstring_error_fallback_witness :
    statusOf respErrNum ≠ "success" ∧
    (handleResponse false "getself" respErrNum = Outcome.errorExit "unknown error" ∧
      errorMessageOf respErrNum = "unknown error") :=
  ⟨by decide, c9_nonstring_error_fallback "getself" respErrNum (Json.num 5)
    (by decide) rfl rfl⟩

/-- Claim C10: in non-JSON mode, when a success payload lacks the array
the `list`, `getpeers` or `gettree` renderer expects (the field absent
or not an array), the client prints nothing at all and still exits with
status zero. -/
theorem c10_missing_array_prints_nothing (cmd : String) (resp : Json)
    (hs : statusOf resp = "success") :
    (toLowercase cmd = "list" →
      ((resp.index "response").get "list").bind Json.asArr = none →
      handleResponse false cmd resp = Outcome.rendered [] ∧
        (handleResponse false cmd resp).exitCode = 0) ∧
    (toLowercase cmd = "getpeers" →
      ((resp.index "response").get "peers").bind Json.asArr = none →
      handleResponse false cmd resp = Outcome.rendered [] ∧
        (handleResponse false cmd resp).exitCode = 0) ∧
    (toLowercase cmd = "gettree" →
      ((resp.index "response").get "tree").bind Json.asArr = none →
      handleResponse false cmd resp = Outcome.rendered [] ∧
        (handleResponse false cmd resp).exitCode = 0) := by
  refine ⟨fun hc hn => ?_, fun hc hn => ?_, fun hc hn => ?_⟩ <;>
  · have h1 : handleResponse false cmd resp = Outcome.rendered [] := by
      simp [handleResponse, hs, renderCommand, hc, hn, renderList]
    exact ⟨h1, by rw [h1]; rfl⟩

/-- Claim C10 (witness): a success response with no payload at all. -/
theorem c10_missing_array_prints_nothing_witness :
    statusOf respBare = "success" ∧
    (handleResponse false "list" respBare = Outcome.rendered [] ∧
      (handleResponse false "list" respBare).exitCode = 0) :=
  ⟨rfl, (c10_missing_array_prints_nothing "list" respBare rfl).1 rfl rfl⟩
